import Mathlib

/-!
Shallow embedding of `utf.hpp` (namespace `utf`): the per-encoding trait set
`utf_traits<utf8/utf16/utf32>` and the `stringview<E>` operations, together
with proofs of the specification claims about them.

Modelling conventions:
* A buffer of code units is a `List Nat`; a `char` buffer holds byte values
  below `2^8`, a `char16_t` buffer values below `2^16`, a `char32_t` buffer
  values below `2^32`.  The C++ bit operations promote to `int`/`unsigned`
  but every mask used keeps only the low bits of the unit, so operating on
  the unit value directly is faithful.
* `codepoint_type` is `char32_t`; codepoint arguments are `Nat` and carry an
  explicit bound where the 32-bit width matters.
* Machine arithmetic that can wrap (the `size_t` subtraction in
  `utf_traits<utf16>::encode`, the `int` subtraction in its `decode`) is
  modelled with explicit `% 2^64` / `% 2^32` (written as literal numerals).
* Reads past the end of the window (undefined behaviour in the C++) are
  modelled by `Option`: traversals that would read or step past `last`
  return `none`.
-/

set_option maxHeartbeats 1000000
set_option maxRecDepth 20000
set_option linter.unnecessarySeqFocus false

namespace UtfHpp

/-- Encoding tags `utf8`, `utf16`, `utf32` from `utf.hpp`. -/
inductive Encoding where
  | utf8
  | utf16
  | utf32

/-- Free function `utf::validate_codepoint`: scalar-value validity of a codepoint. -/
def validate_codepoint (c : Nat) : Bool :=
  if c < 0xd800 then true
  else if c < 0xe000 then false
  else if c < 0x110000 then true
  else false

/-- Spec notion of a scalar-value-valid codepoint, used as a hypothesis. -/
def ScalarValid (c : Nat) : Prop :=
  c < 0xd800 ∨ (0xe000 ≤ c ∧ c < 0x110000)

namespace Utf8

/-- Function `utf_traits<utf8>::read_length`: sequence length from the lead byte
bit pattern; stray continuation or invalid lead bytes defensively give 1. -/
def read_length (c : Nat) : Nat :=
  if c &&& 0x80 = 0x00 then 1
  else if c &&& 0xe0 = 0xc0 then 2
  else if c &&& 0xf0 = 0xe0 then 3
  else if c &&& 0xf8 = 0xf0 then 4
  else 1

/-- Function `utf_traits<utf8>::write_length`: units needed to encode a codepoint,
0 for surrogate-range or out-of-range codepoints. -/
def write_length (c : Nat) : Nat :=
  if c ≤ 0x7f then 1
  else if c < 0x0800 then 2
  else if c < 0xd800 then 3
  else if c < 0xe000 then 0
  else if c < 0x010000 then 3
  else if c < 0x110000 then 4
  else 0

/-- Function `utf_traits<utf8>::validate` on the subsequence `[first, last)`:
lead-byte pattern must match the length, trailing bytes must be continuations,
and the three overlong checks of the source are applied.  The three sequential
early-return blocks of the C++ are expressed as a conjunction. -/
def validate (s : List Nat) : Bool :=
  let len := s.length
  let lead := s.headD 0
  let leadOk : Bool :=
    match len with
    | 1 => lead &&& 0x80 == 0x00
    | 2 => lead &&& 0xe0 == 0xc0
    | 3 => lead &&& 0xf0 == 0xe0
    | 4 => lead &&& 0xf8 == 0xf0
    | _ => false
  let contOk : Bool := s.tail.all fun c => c &&& 0xc0 == 0x80
  let notOverlong : Bool :=
    match len with
    | 2 => !(decide (lead ≤ 0xc1))
    | 3 => !(lead == 0xe0)
    | 4 => !(lead == 0xf0 && decide (s.tail.headD 0 < 0x90))
    | _ => true
  leadOk && contOk && notOverlong

/-- Trailing-byte loop of `utf_traits<utf8>::encode`: the loop runs for
`i = len .. 2`, writing `(c & 0x3f) | 0x80` into `res[i-1]` and shifting `c`
right by 6 each step; so the byte produced first is the last of the sequence.
Returns the final value of `c` and the bytes `res[1..len-1]` in buffer order. -/
def encode_trail (c : Nat) : Nat → Nat × List Nat
  | 0 => (c, [])
  | n + 1 =>
    let b := (c &&& 0x3f) ||| 0x80
    let p := encode_trail (c >>> 6) n
    (p.1, p.2 ++ [b])

/-- Function `utf_traits<utf8>::encode`.  `res` is an `unsigned char` array, so
each stored byte is reduced modulo `2^8` (the trailing bytes are below `2^8` by
construction).  Calling it with `write_length c = 0` is a contract violation
(`assert(false)` and an out-of-bounds array write in the C++); that unreachable
case is modelled as the empty output. -/
def encode (c : Nat) : List Nat :=
  let len := write_length c
  if len = 0 then []
  else
    let p := encode_trail c (len - 1)
    let lead :=
      match len with
      | 1 => p.1 &&& 0xff
      | 2 => (p.1 ||| 0xc0) &&& 0xff
      | 3 => (p.1 ||| 0xe0) &&& 0xff
      | _ => (p.1 ||| 0xf0) &&& 0xff
    lead :: p.2

/-- Continuation loop of `utf_traits<utf8>::decode`:
`res = (res << 6) | (c[i] & 0x3f)` for each trailing byte. -/
def decode_cont (res : Nat) : List Nat → Nat
  | [] => res
  | b :: t => decode_cont ((res <<< 6) ||| (b &&& 0x3f)) t

/-- Function `utf_traits<utf8>::decode` at a pointer into the buffer, given as
the suffix of the buffer starting there.  It reads `read_length` units; the
wildcard branch is the `case 1` of the source (the `default` is unreachable
because `read_length` only returns 1..4).  Reads past the end of the buffer are
undefined in the C++ and never occur in validated uses; the model reads only
what is present. -/
def decode (s : List Nat) : Nat :=
  let lead := s.headD 0
  let len := read_length lead
  let res0 :=
    match len with
    | 2 => lead &&& 0x1f
    | 3 => lead &&& 0x0f
    | 4 => lead &&& 0x07
    | _ => lead
  decode_cont res0 (((s.drop 1).take (len - 1)))

end Utf8

namespace Utf16

/-- Function `utf_traits<utf16>::read_length`: 2 for a high surrogate lead, else 1. -/
def read_length (c : Nat) : Nat :=
  if c < 0xd800 then 1
  else if c < 0xdc00 then 2
  else if c < 0x010000 then 1
  else 1

/-- Function `utf_traits<utf16>::write_length`. -/
def write_length (c : Nat) : Nat :=
  if c < 0xd800 then 1
  else if c < 0xe000 then 0
  else if c < 0x010000 then 1
  else if c < 0x110000 then 2
  else 0

/-- Function `utf_traits<utf16>::validate` on the subsequence `[first, last)`. -/
def validate (s : List Nat) : Bool :=
  match s with
  | [lead] =>
    if 0xd800 ≤ lead ∧ lead < 0xe000 then false else true
  | [lead, trail] =>
    if lead < 0xd800 ∨ 0xdc00 ≤ lead then false
    else if trail < 0xdc00 ∨ 0xe000 ≤ trail then false
    else true
  | _ => false

/-- Function `utf_traits<utf16>::encode`.  The intermediate `tmp` is a `size_t`
(64-bit), so `c - 0x10000` wraps modulo `2^64`; the two stores are
`static_cast<char16_t>` and the single store assigns to a `char16_t` sink, so
all written units are reduced modulo `2^16`. -/
def encode (c : Nat) : List Nat :=
  let len := write_length c
  if len = 1 then [c &&& 0xffff]
  else
    let tmp := (c + 18446744073709551616 - 0x10000) % 18446744073709551616
    [((tmp >>> 10) + 0xd800) &&& 0xffff, ((tmp &&& 0x3ff) + 0xdc00) &&& 0xffff]

/-- Function `utf_traits<utf16>::decode` at a pointer, given as the suffix of
the buffer starting there.  `res` is a `char32_t`, so the accumulation of
`(trail - 0xdc00)` (an `int`, negative only on invalid input) and the final
`+ 0x10000` happen modulo `2^32`; `lead - 0xd800` is non-negative whenever the
two-unit branch is taken, because `read_length` returned 2. -/
def decode (s : List Nat) : Nat :=
  let lead := s.headD 0
  let len := read_length lead
  if len = 1 then lead
  else
    let trail := s.getD 1 0
    (((lead - 0xd800) <<< 10) + (trail + 4294967296 - 0xdc00) + 0x10000) % 4294967296

end Utf16

namespace Utf32

/-- Function `utf_traits<utf32>::read_length`: always 1. -/
def read_length (_ : Nat) : Nat := 1

/-- Function `utf_traits<utf32>::write_length`. -/
def write_length (c : Nat) : Nat :=
  if c < 0xd800 then 1
  else if c < 0xe000 then 0
  else if c < 0x110000 then 1
  else 0

/-- Function `utf_traits<utf32>::validate`: the run must have length exactly 1;
the codepoint value itself is checked by the free `validate_codepoint`. -/
def validate (s : List Nat) : Bool :=
  s.length == 1

/-- Function `utf_traits<utf32>::encode`: writes the `char32_t` value directly. -/
def encode (c : Nat) : List Nat := [c]

/-- Function `utf_traits<utf32>::decode`: reads the unit directly. -/
def decode (s : List Nat) : Nat := s.headD 0

end Utf32

/-- Dispatch of `utf_traits<E>::read_length` on the encoding tag. -/
def read_length : Encoding → Nat → Nat
  | .utf8 => Utf8.read_length
  | .utf16 => Utf16.read_length
  | .utf32 => Utf32.read_length

/-- Dispatch of `utf_traits<E>::write_length` on the encoding tag. -/
def write_length : Encoding → Nat → Nat
  | .utf8 => Utf8.write_length
  | .utf16 => Utf16.write_length
  | .utf32 => Utf32.write_length

/-- Dispatch of `utf_traits<E>::validate` on the encoding tag. -/
def validate : Encoding → List Nat → Bool
  | .utf8 => Utf8.validate
  | .utf16 => Utf16.validate
  | .utf32 => Utf32.validate

/-- Dispatch of `utf_traits<E>::encode` on the encoding tag. -/
def encode : Encoding → Nat → List Nat
  | .utf8 => Utf8.encode
  | .utf16 => Utf16.encode
  | .utf32 => Utf32.encode

/-- Dispatch of `utf_traits<E>::decode` on the encoding tag. -/
def decode : Encoding → List Nat → Nat
  | .utf8 => Utf8.decode
  | .utf16 => Utf16.decode
  | .utf32 => Utf32.decode

/-- Exclusive upper bound of a code unit value: `char` / `char16_t` / `char32_t`. -/
def unit_bound : Encoding → Nat
  | .utf8 => 2 ^ 8
  | .utf16 => 2 ^ 16
  | .utf32 => 2 ^ 32

/-- Width of a code unit in bytes: `sizeof` of `char` / `char16_t` / `char32_t`. -/
def unit_size : Encoding → Nat
  | .utf8 => 1
  | .utf16 => 2
  | .utf32 => 4

/-- Every unit of the buffer fits in the code unit type of `E`; this is
intrinsic to the C++ buffer types and becomes a hypothesis in the model. -/
def UnitsOK (E : Encoding) (l : List Nat) : Prop :=
  ∀ u ∈ l, u < unit_bound E

/-- Lemma needed before the view definitions: every traversal step consumes at
least one code unit, since `read_length` returns 1 on every branch that does
not return 2, 3 or 4.  This is the termination measure of the view loops. -/
theorem one_le_read_length (E : Encoding) (u : Nat) : 1 ≤ read_length E u := by
  rcases E
  all_goals simp only [read_length, Utf8.read_length, Utf16.read_length, Utf32.read_length]
  all_goals repeat' split
  all_goals omega

/-- Method `stringview<E>::validate` on the window `[first, last)`.
`some false` models the explicit `return false` paths.  The C++ function has
no return statement on its success path: when the loop consumes the window
completely, control falls off the end of a non-void function (undefined
behaviour, no value is returned); that outcome is modelled as `none`. -/
def sv_validate (E : Encoding) : List Nat → Option Bool
  | [] => none
  | u :: rest =>
    let len := read_length E u
    if (u :: rest).length < len then some false
    else if validate E ((u :: rest).take len) = false then some false
    else if validate_codepoint (decode E (u :: rest)) = false then some false
    else sv_validate E ((u :: rest).drop len)
termination_by l => l.length
decreasing_by
  simp only [List.length_drop, List.length_cons]
  exact Nat.sub_lt (Nat.succ_pos _) (one_le_read_length _ _)

/-- Method `stringview<E>::codepoints`: counts one per traversal step
(`++cps` runs once per loop iteration). -/
def sv_codepoints (E : Encoding) : List Nat → Nat
  | [] => 0
  | u :: rest => sv_codepoints E ((u :: rest).drop (read_length E u)) + 1
termination_by l => l.length
decreasing_by
  simp only [List.length_drop, List.length_cons]
  exact Nat.sub_lt (Nat.succ_pos _) (one_le_read_length _ _)

/-- Method `stringview<E>::codeunits` (same encoding): `last - first`. -/
def sv_codeunits (l : List Nat) : Nat := l.length

/-- Method `stringview<E>::bytes` (same encoding). -/
def sv_bytes (E : Encoding) (l : List Nat) : Nat :=
  sv_codeunits l * unit_size E

/-- Method `stringview<E>::codeunits<EDest>`: decodes each sequence under `E`
and sums `write_length` under `EDest`.  The loop decodes at `cur`
unconditionally; when `read_length` exceeds the remaining window the decode
reads past `last` (undefined behaviour), modelled as `none`. -/
def sv_codeunits_to (E EDest : Encoding) : List Nat → Option Nat
  | [] => some 0
  | u :: rest =>
    let slen := read_length E u
    if (u :: rest).length < slen then none
    else
      match sv_codeunits_to E EDest ((u :: rest).drop slen) with
      | none => none
      | some n => some (write_length EDest (decode E (u :: rest)) + n)
termination_by l => l.length
decreasing_by
  simp only [List.length_drop, List.length_cons]
  exact Nat.sub_lt (Nat.succ_pos _) (one_le_read_length _ _)

/-- Method `stringview<E>::bytes<EDest>`. -/
def sv_bytes_to (E EDest : Encoding) (l : List Nat) : Option Nat :=
  (sv_codeunits_to E EDest l).map fun n => n * unit_size EDest

/-- Method `stringview<E>::to<EDest>`: decodes each sequence under `E` and
appends its `EDest` encoding to the sink.  The loop condition is `cur != last`;
when `read_length` exceeds the remaining window the decode reads past `last`
and `cur` steps over `last` without ever equalling it (undefined behaviour),
modelled as `none`. -/
def sv_to (E EDest : Encoding) : List Nat → Option (List Nat)
  | [] => some []
  | u :: rest =>
    let slen := read_length E u
    if (u :: rest).length < slen then none
    else
      match sv_to E EDest ((u :: rest).drop slen) with
      | none => none
      | some out => some (encode EDest (decode E (u :: rest)) ++ out)
termination_by l => l.length
decreasing_by
  simp only [List.length_drop, List.length_cons]
  exact Nat.sub_lt (Nat.succ_pos _) (one_le_read_length _ _)

/-! ### Arithmetic toolkit for the bit manipulations of the source -/

theorem and_3f (x : Nat) : x &&& 0x3f = x % 64 := Nat.and_pow_two_sub_one_eq_mod x 6

theorem and_1f (x : Nat) : x &&& 0x1f = x % 32 := Nat.and_pow_two_sub_one_eq_mod x 5

theorem and_0f (x : Nat) : x &&& 0x0f = x % 16 := Nat.and_pow_two_sub_one_eq_mod x 4

theorem and_07 (x : Nat) : x &&& 0x07 = x % 8 := Nat.and_pow_two_sub_one_eq_mod x 3

theorem and_ff (x : Nat) : x &&& 0xff = x % 256 := Nat.and_pow_two_sub_one_eq_mod x 8

theorem and_3ff (x : Nat) : x &&& 0x3ff = x % 1024 := Nat.and_pow_two_sub_one_eq_mod x 10

theorem and_ffff (x : Nat) : x &&& 0xffff = x % 65536 := Nat.and_pow_two_sub_one_eq_mod x 16

theorem lor_eq_add_of (k a b : Nat) (ha : a % 2 ^ k = 0) (hb : b < 2 ^ k) :
    a ||| b = a + b := by
  have hd : 2 ^ k * (a / 2 ^ k) = a := Nat.mul_div_cancel' (Nat.dvd_of_mod_eq_zero ha)
  calc a ||| b = 2 ^ k * (a / 2 ^ k) ||| b := by rw [hd]
    _ = 2 ^ k * (a / 2 ^ k) + b := (Nat.mul_add_lt_is_or hb _).symm
    _ = a + b := by rw [hd]

theorem shiftl6 (x : Nat) : x <<< 6 = x * 64 := Nat.shiftLeft_eq x 6

theorem shiftl10 (x : Nat) : x <<< 10 = x * 1024 := Nat.shiftLeft_eq x 10

theorem shiftr6 (x : Nat) : x >>> 6 = x / 64 := Nat.shiftRight_eq_div_pow x 6

theorem shiftr10 (x : Nat) : x >>> 10 = x / 1024 := Nat.shiftRight_eq_div_pow x 10

/-- Byte classification: the lead-byte mask tests of the UTF-8 routines,
expressed as ranges, for all byte values. -/
theorem byte_mask_ranges : ∀ b < 256,
    (b &&& 0x80 = 0 ↔ b < 0x80) ∧
    (b &&& 0xe0 = 0xc0 ↔ 0xc0 ≤ b ∧ b < 0xe0) ∧
    (b &&& 0xf0 = 0xe0 ↔ 0xe0 ≤ b ∧ b < 0xf0) ∧
    (b &&& 0xf8 = 0xf0 ↔ 0xf0 ≤ b ∧ b < 0xf8) ∧
    (b &&& 0xc0 = 0x80 ↔ 0x80 ≤ b ∧ b < 0xc0) := by decide

/-- Value of `read_length` of `utf_traits<utf8>` on every byte, as ranges. -/
theorem utf8_read_length_byte : ∀ b < 256,
    Utf8.read_length b =
      if b < 0x80 then 1
      else if b < 0xc0 then 1
      else if b < 0xe0 then 2
      else if b < 0xf0 then 3
      else if b < 0xf8 then 4
      else 1 := by decide

/-- Scalar-value validity as the free `validate_codepoint` computes it. -/
theorem validate_codepoint_iff (c : Nat) : validate_codepoint c = true ↔ ScalarValid c := by
  unfold validate_codepoint ScalarValid
  split_ifs <;> simp_all

/-! ### Unfolding lemmas for the view traversals -/

theorem sv_validate_nil (E : Encoding) : sv_validate E [] = none := by
  rw [sv_validate]

theorem sv_validate_cons (E : Encoding) (u : Nat) (rest : List Nat) :
    sv_validate E (u :: rest) =
      (if (u :: rest).length < read_length E u then some false
       else if validate E ((u :: rest).take (read_length E u)) = false then some false
       else if validate_codepoint (decode E (u :: rest)) = false then some false
       else sv_validate E ((u :: rest).drop (read_length E u))) := by
  rw [sv_validate]

theorem sv_codepoints_nil (E : Encoding) : sv_codepoints E [] = 0 := by
  rw [sv_codepoints]

theorem sv_codepoints_cons (E : Encoding) (u : Nat) (rest : List Nat) :
    sv_codepoints E (u :: rest) =
      sv_codepoints E ((u :: rest).drop (read_length E u)) + 1 := by
  rw [sv_codepoints]

theorem sv_codeunits_to_nil (E EDest : Encoding) : sv_codeunits_to E EDest [] = some 0 := by
  rw [sv_codeunits_to]

theorem sv_codeunits_to_cons (E EDest : Encoding) (u : Nat) (rest : List Nat) :
    sv_codeunits_to E EDest (u :: rest) =
      (if (u :: rest).length < read_length E u then none
       else
         match sv_codeunits_to E EDest ((u :: rest).drop (read_length E u)) with
         | none => none
         | some n => some (write_length EDest (decode E (u :: rest)) + n)) := by
  rw [sv_codeunits_to]

theorem sv_to_nil (E EDest : Encoding) : sv_to E EDest [] = some [] := by
  rw [sv_to]

theorem or_80 (x : Nat) (h : x < 64) : x ||| 0x80 = 0x80 + x := by
  rw [Nat.lor_comm]
  exact lor_eq_add_of 7 0x80 x (by norm_num) (by omega)

theorem or_c0 (x : Nat) (h : x < 64) : x ||| 0xc0 = 0xc0 + x := by
  rw [Nat.lor_comm]
  exact lor_eq_add_of 6 0xc0 x (by norm_num) (by omega)

theorem or_e0 (x : Nat) (h : x < 32) : x ||| 0xe0 = 0xe0 + x := by
  rw [Nat.lor_comm]
  exact lor_eq_add_of 5 0xe0 x (by norm_num) (by omega)

theorem or_f0 (x : Nat) (h : x < 16) : x ||| 0xf0 = 0xf0 + x := by
  rw [Nat.lor_comm]
  exact lor_eq_add_of 4 0xf0 x (by norm_num) (by omega)

/-! ### Closed forms of the UTF-8 encoder, one per length class -/

theorem utf8_write_length_one (c : Nat) (h : c ≤ 0x7f) : Utf8.write_length c = 1 := by
  unfold Utf8.write_length
  rw [if_pos h]

theorem utf8_write_length_two (c : Nat) (h1 : 0x80 ≤ c) (h2 : c < 0x800) :
    Utf8.write_length c = 2 := by
  unfold Utf8.write_length
  rw [if_neg (by omega), if_pos h2]

theorem utf8_write_length_three (c : Nat) (h1 : 0x800 ≤ c) (h2 : c < 0x10000)
    (h3 : ScalarValid c) : Utf8.write_length c = 3 := by
  unfold Utf8.write_length
  rcases h3 with h3 | h3
  · rw [if_neg (by omega), if_neg (by omega), if_pos (by omega)]
  · rw [if_neg (by omega), if_neg (by omega), if_neg (by omega), if_neg (by omega),
      if_pos (by omega)]

theorem utf8_write_length_four (c : Nat) (h1 : 0x10000 ≤ c) (h2 : c < 0x110000) :
    Utf8.write_length c = 4 := by
  unfold Utf8.write_length
  rw [if_neg (by omega), if_neg (by omega), if_neg (by omega), if_neg (by omega),
    if_neg (by omega), if_pos h2]

theorem utf8_encode_one (c : Nat) (h : c ≤ 0x7f) : Utf8.encode c = [c] := by
  unfold Utf8.encode
  rw [utf8_write_length_one c h]
  norm_num [Utf8.encode_trail, and_ff]
  omega

theorem utf8_encode_two (c : Nat) (h1 : 0x80 ≤ c) (h2 : c < 0x800) :
    Utf8.encode c = [0xc0 + c / 64, 0x80 + c % 64] := by
  unfold Utf8.encode
  rw [utf8_write_length_two c h1 h2]
  norm_num [Utf8.encode_trail, shiftr6, and_3f, and_ff]
  rw [or_c0 (c / 64) (by omega), or_80 (c % 64) (by omega)]
  constructor
  · omega
  · omega

theorem utf8_encode_three (c : Nat) (h1 : 0x800 ≤ c) (h2 : c < 0x10000)
    (h3 : ScalarValid c) :
    Utf8.encode c = [0xe0 + c / 4096, 0x80 + c / 64 % 64, 0x80 + c % 64] := by
  unfold Utf8.encode
  rw [utf8_write_length_three c h1 h2 h3]
  norm_num [Utf8.encode_trail, shiftr6, and_3f, and_ff, Nat.div_div_eq_div_mul]
  rw [or_e0 (c / 4096) (by omega), or_80 (c / 64 % 64) (by omega), or_80 (c % 64) (by omega)]
  refine ⟨by omega, by omega, by omega⟩

theorem utf8_encode_four (c : Nat) (h1 : 0x10000 ≤ c) (h2 : c < 0x110000) :
    Utf8.encode c =
      [0xf0 + c / 262144, 0x80 + c / 4096 % 64, 0x80 + c / 64 % 64, 0x80 + c % 64] := by
  unfold Utf8.encode
  rw [utf8_write_length_four c h1 h2]
  norm_num [Utf8.encode_trail, shiftr6, and_3f, and_ff, Nat.div_div_eq_div_mul]
  rw [or_f0 (c / 262144) (by omega), or_80 (c / 4096 % 64) (by omega),
    or_80 (c / 64 % 64) (by omega), or_80 (c % 64) (by omega)]
  refine ⟨by omega, by omega, by omega, by omega⟩

/-! ### Evaluation of `read_length` on lead bytes of each class -/

theorem utf8_read_length_ascii (b : Nat) (h : b < 0x80) : Utf8.read_length b = 1 := by
  rw [utf8_read_length_byte b (by omega), if_pos h]

theorem utf8_read_length_lead2 (b : Nat) (h1 : 0xc0 ≤ b) (h2 : b < 0xe0) :
    Utf8.read_length b = 2 := by
  rw [utf8_read_length_byte b (by omega), if_neg (by omega), if_neg (by omega), if_pos h2]

theorem utf8_read_length_lead3 (b : Nat) (h1 : 0xe0 ≤ b) (h2 : b < 0xf0) :
    Utf8.read_length b = 3 := by
  rw [utf8_read_length_byte b (by omega), if_neg (by omega), if_neg (by omega),
    if_neg (by omega), if_pos h2]

theorem utf8_read_length_lead4 (b : Nat) (h1 : 0xf0 ≤ b) (h2 : b < 0xf8) :
    Utf8.read_length b = 4 := by
  rw [utf8_read_length_byte b (by omega), if_neg (by omega), if_neg (by omega),
    if_neg (by omega), if_neg (by omega), if_pos h2]

/-! ### Decoding freshly encoded output, with an arbitrary suffix appended -/

theorem utf8_decode_encode_append (c : Nat) (h : ScalarValid c) (t : List Nat) :
    Utf8.decode (Utf8.encode c ++ t) = c := by
  have h110 : c < 0x110000 := by rcases h with h | h <;> omega
  rcases Nat.lt_or_ge c 0x80 with hc | hc
  · rw [utf8_encode_one c (by omega)]
    unfold Utf8.decode
    norm_num [utf8_read_length_ascii c hc, Utf8.decode_cont]
  · rcases Nat.lt_or_ge c 0x800 with hc2 | hc2
    · rw [utf8_encode_two c hc hc2]
      unfold Utf8.decode
      norm_num [utf8_read_length_lead2 (0xc0 + c / 64) (by omega) (by omega),
        Utf8.decode_cont, and_1f, and_3f, shiftl6]
      rw [lor_eq_add_of 6 ((192 + c / 64) % 32 * 64) ((128 + c) % 64) (by omega)
        (by omega)]
      omega
    · rcases Nat.lt_or_ge c 0x10000 with hc3 | hc3
      · rw [utf8_encode_three c hc2 hc3 h]
        unfold Utf8.decode
        norm_num [utf8_read_length_lead3 (0xe0 + c / 4096) (by omega) (by omega),
          Utf8.decode_cont, and_0f, and_3f, shiftl6]
        rw [lor_eq_add_of 6 ((224 + c / 4096) % 16 * 64) ((128 + c / 64) % 64) (by omega)
          (by omega)]
        rw [lor_eq_add_of 6 (((224 + c / 4096) % 16 * 64 + (128 + c / 64) % 64) * 64)
          ((128 + c) % 64) (by omega) (by omega)]
        omega
      · rw [utf8_encode_four c hc3 h110]
        unfold Utf8.decode
        norm_num [utf8_read_length_lead4 (0xf0 + c / 262144) (by omega) (by omega),
          Utf8.decode_cont, and_07, and_3f, shiftl6]
        rw [lor_eq_add_of 6 ((240 + c / 262144) % 8 * 64) ((128 + c / 4096) % 64)
          (by omega) (by omega)]
        rw [lor_eq_add_of 6 (((240 + c / 262144) % 8 * 64 + (128 + c / 4096) % 64) * 64)
          ((128 + c / 64) % 64) (by omega) (by omega)]
        rw [lor_eq_add_of 6
          ((((240 + c / 262144) % 8 * 64 + (128 + c / 4096) % 64) * 64 +
            (128 + c / 64) % 64) * 64) ((128 + c) % 64) (by omega) (by omega)]
        omega

theorem sv_to_cons (E EDest : Encoding) (u : Nat) (rest : List Nat) :
    sv_to E EDest (u :: rest) =
      (if (u :: rest).length < read_length E u then none
       else
         match sv_to E EDest ((u :: rest).drop (read_length E u)) with
         | none => none
         | some out => some (encode EDest (decode E (u :: rest)) ++ out)) := by
  rw [sv_to]

/-! ### Closed forms of the UTF-16 and UTF-32 encoders -/

theorem utf16_write_length_one (c : Nat) (h : ScalarValid c) (h2 : c < 0x10000) :
    Utf16.write_length c = 1 := by
  rcases h with h | h
  · unfold Utf16.write_length
    rw [if_pos (by omega)]
  · unfold Utf16.write_length
    rw [if_neg (by omega), if_neg (by omega), if_pos (by omega)]

theorem utf16_write_length_two (c : Nat) (h1 : 0x10000 ≤ c) (h2 : c < 0x110000) :
    Utf16.write_length c = 2 := by
  unfold Utf16.write_length
  rw [if_neg (by omega), if_neg (by omega), if_neg (by omega), if_pos h2]

theorem utf16_encode_bmp (c : Nat) (h : ScalarValid c) (h2 : c < 0x10000) :
    Utf16.encode c = [c] := by
  unfold Utf16.encode
  rw [utf16_write_length_one c h h2]
  norm_num [and_ffff]
  omega

theorem utf16_encode_pair (c : Nat) (h1 : 0x10000 ≤ c) (h2 : c < 0x110000) :
    Utf16.encode c = [0xd800 + (c - 0x10000) / 1024, 0xdc00 + (c - 0x10000) % 1024] := by
  unfold Utf16.encode
  rw [utf16_write_length_two c h1 h2]
  rw [if_neg (by norm_num)]
  have e1 : c + 18446744073709551616 - 0x10000 = (c - 0x10000) + 18446744073709551616 := by
    omega
  rw [e1, Nat.add_mod_right, Nat.mod_eq_of_lt (by omega)]
  simp only [shiftr10, and_3ff, and_ffff]
  rw [Nat.mod_eq_of_lt (by omega), Nat.mod_eq_of_lt (by omega)]
  simp only [List.cons.injEq, and_true]
  constructor
  · omega
  · omega

theorem utf16_read_length_one (a : Nat) (h : a < 0xd800 ∨ 0xdc00 ≤ a) :
    Utf16.read_length a = 1 := by
  unfold Utf16.read_length
  split_ifs <;> omega

theorem utf16_read_length_two (a : Nat) (h1 : 0xd800 ≤ a) (h2 : a < 0xdc00) :
    Utf16.read_length a = 2 := by
  unfold Utf16.read_length
  split_ifs <;> omega

/-- Definitional shape of `utf_traits<utf16>::decode` on a two-or-more unit
buffer. -/
theorem utf16_decode_cons (a b : Nat) (t : List Nat) :
    Utf16.decode (a :: b :: t) =
      (if Utf16.read_length a = 1 then a
       else (((a - 0xd800) <<< 10) + (b + 4294967296 - 0xdc00) + 0x10000) % 4294967296) := rfl

/-- Value of `utf_traits<utf16>::decode` on a one-unit lead: the unit itself. -/
theorem utf16_decode_one (a : Nat) (t : List Nat) (h : Utf16.read_length a = 1) :
    Utf16.decode (a :: t) = a := by
  unfold Utf16.decode
  simp only [List.headD_cons, h]
  exact if_pos trivial

theorem utf16_decode_encode_append (c : Nat) (h : ScalarValid c) (t : List Nat) :
    Utf16.decode (Utf16.encode c ++ t) = c := by
  rcases Nat.lt_or_ge c 0x10000 with hc | hc
  · rw [utf16_encode_bmp c h hc]
    simp only [List.cons_append, List.nil_append]
    have hor : c < 0xd800 ∨ 0xdc00 ≤ c := by rcases h with h | h <;> omega
    exact utf16_decode_one c t (utf16_read_length_one c hor)
  · have h2 : c < 0x110000 := by rcases h with h | h <;> omega
    rw [utf16_encode_pair c hc h2, List.cons_append, List.cons_append, utf16_decode_cons,
      utf16_read_length_two _ (by omega) (by omega), if_neg (by norm_num), shiftl10]
    omega

theorem utf32_decode_encode_append (c : Nat) (t : List Nat) :
    Utf32.decode (Utf32.encode c ++ t) = c := rfl

/-- Round trip at the trait level, stated with an arbitrary appended suffix:
decode reads only the units encode wrote. -/
theorem decode_encode_append (E : Encoding) (c : Nat) (h : ScalarValid c) (t : List Nat) :
    decode E (encode E c ++ t) = c := by
  rcases E
  · exact utf8_decode_encode_append c h t
  · exact utf16_decode_encode_append c h t
  · exact utf32_decode_encode_append c t

/-! ### Shape of freshly encoded output: length and re-parsed length -/

theorem utf8_encode_spec (c : Nat) (h : ScalarValid c) :
    (Utf8.encode c).length = Utf8.write_length c ∧
      Utf8.read_length ((Utf8.encode c).headD 0) = Utf8.write_length c := by
  have h110 : c < 0x110000 := by rcases h with h | h <;> omega
  rcases Nat.lt_or_ge c 0x80 with hc | hc
  · rw [utf8_encode_one c (by omega), utf8_write_length_one c (by omega)]
    exact ⟨rfl, utf8_read_length_ascii c hc⟩
  · rcases Nat.lt_or_ge c 0x800 with hc2 | hc2
    · rw [utf8_encode_two c hc hc2, utf8_write_length_two c hc hc2]
      refine ⟨rfl, ?_⟩
      simp only [List.headD_cons]
      exact utf8_read_length_lead2 _ (by omega) (by omega)
    · rcases Nat.lt_or_ge c 0x10000 with hc3 | hc3
      · rw [utf8_encode_three c hc2 hc3 h, utf8_write_length_three c hc2 hc3 h]
        refine ⟨rfl, ?_⟩
        simp only [List.headD_cons]
        exact utf8_read_length_lead3 _ (by omega) (by omega)
      · rw [utf8_encode_four c hc3 h110, utf8_write_length_four c hc3 h110]
        refine ⟨rfl, ?_⟩
        simp only [List.headD_cons]
        exact utf8_read_length_lead4 _ (by omega) (by omega)

theorem u16rl_head_one (x : Nat) (l : List Nat) (h : x < 0xd800 ∨ 0xdc00 ≤ x) :
    Utf16.read_length ((x :: l).headD 0) = 1 :=
  utf16_read_length_one x h

theorem u16rl_head_two (x : Nat) (l : List Nat) (h1 : 0xd800 ≤ x) (h2 : x < 0xdc00) :
    Utf16.read_length ((x :: l).headD 0) = 2 :=
  utf16_read_length_two x h1 h2

theorem u16len_bmp (c : Nat) (h : ScalarValid c) (hc : c < 0x10000) :
    (Utf16.encode c).length = Utf16.write_length c := by
  rw [utf16_encode_bmp c h hc, utf16_write_length_one c h hc]
  rfl

theorem u16rl_bmp (c : Nat) (h : ScalarValid c) (hc : c < 0x10000) :
    Utf16.read_length ((Utf16.encode c).headD 0) = Utf16.write_length c := by
  rw [utf16_write_length_one c h hc, utf16_encode_bmp c h hc]
  exact u16rl_head_one c [] (by rcases h with h | h <;> omega)

theorem u16len_pair (c : Nat) (hc : 0x10000 ≤ c) (h2 : c < 0x110000) :
    (Utf16.encode c).length = Utf16.write_length c := by
  rw [utf16_encode_pair c hc h2, utf16_write_length_two c hc h2]
  rfl

theorem u16rl_pair (c : Nat) (hc : 0x10000 ≤ c) (h2 : c < 0x110000) :
    Utf16.read_length ((Utf16.encode c).headD 0) = Utf16.write_length c := by
  rw [utf16_write_length_two c hc h2, utf16_encode_pair c hc h2]
  exact u16rl_head_two _ _ (by omega) (by omega)

theorem utf16_encode_spec (c : Nat) (h : ScalarValid c) :
    (Utf16.encode c).length = Utf16.write_length c ∧
      Utf16.read_length ((Utf16.encode c).headD 0) = Utf16.write_length c := by
  rcases Nat.lt_or_ge c 0x10000 with hc | hc
  · exact ⟨u16len_bmp c h hc, u16rl_bmp c h hc⟩
  · have h2 : c < 0x110000 := by rcases h with h | h <;> omega
    exact ⟨u16len_pair c hc h2, u16rl_pair c hc h2⟩

theorem utf32_encode_spec (c : Nat) (h : ScalarValid c) :
    (Utf32.encode c).length = Utf32.write_length c ∧
      Utf32.read_length ((Utf32.encode c).headD 0) = Utf32.write_length c := by
  have hw : Utf32.write_length c = 1 := by
    rcases h with h | h <;> (unfold Utf32.write_length; split_ifs <;> omega)
  rw [hw]
  exact ⟨rfl, rfl⟩

/-- Shape of freshly encoded output for every encoding: `encode` writes exactly
`write_length c` units and `read_length` of the first written unit gives that
same count back. -/
theorem encode_spec (E : Encoding) (c : Nat) (h : ScalarValid c) :
    (encode E c).length = write_length E c ∧
      read_length E ((encode E c).headD 0) = write_length E c := by
  rcases E
  · exact utf8_encode_spec c h
  · exact utf16_encode_spec c h
  · exact utf32_encode_spec c h

/-! ### Characterization of the per-encoding validators on explicit sequences -/

theorem utf8_validate_one_shape (l : Nat) :
    Utf8.validate [l] = ((l &&& 0x80 == 0x00) && true && true) := rfl

theorem utf8_validate_two_shape (l b : Nat) :
    Utf8.validate [l, b] =
      ((l &&& 0xe0 == 0xc0) && (b &&& 0xc0 == 0x80 && true) && !(decide (l ≤ 0xc1))) := rfl

theorem utf8_validate_three_shape (l b1 b2 : Nat) :
    Utf8.validate [l, b1, b2] =
      ((l &&& 0xf0 == 0xe0) && (b1 &&& 0xc0 == 0x80 && (b2 &&& 0xc0 == 0x80 && true)) &&
        !(l == 0xe0)) := rfl

theorem utf8_validate_four_shape (l b1 b2 b3 : Nat) :
    Utf8.validate [l, b1, b2, b3] =
      ((l &&& 0xf8 == 0xf0) &&
        (b1 &&& 0xc0 == 0x80 && (b2 &&& 0xc0 == 0x80 && (b3 &&& 0xc0 == 0x80 && true))) &&
        !(l == 0xf0 && decide (b1 < 0x90))) := rfl

theorem utf8_validate_one_iff (l : Nat) (hl : l < 256) :
    Utf8.validate [l] = true ↔ l < 0x80 := by
  rw [utf8_validate_one_shape]
  simp only [Bool.and_true, beq_iff_eq]
  exact (byte_mask_ranges l hl).1

theorem utf8_validate_two_iff (l b : Nat) (hl : l < 256) (hb : b < 256) :
    Utf8.validate [l, b] = true ↔ (0xc2 ≤ l ∧ l < 0xe0 ∧ 0x80 ≤ b ∧ b < 0xc0) := by
  rw [utf8_validate_two_shape]
  simp only [Bool.and_true, Bool.and_eq_true, beq_iff_eq, Bool.not_eq_true', decide_eq_false_iff_not,
    not_le]
  constructor
  · rintro ⟨⟨h1, h2⟩, h3⟩
    have := ((byte_mask_ranges l hl).2.1).mp h1
    have := ((byte_mask_ranges b hb).2.2.2.2).mp h2
    omega
  · intro hr
    refine ⟨⟨?_, ?_⟩, by omega⟩
    · exact ((byte_mask_ranges l hl).2.1).mpr (by omega)
    · exact ((byte_mask_ranges b hb).2.2.2.2).mpr (by omega)

theorem utf8_validate_three_iff (l b1 b2 : Nat) (hl : l < 256) (hb1 : b1 < 256) (hb2 : b2 < 256) :
    Utf8.validate [l, b1, b2] = true ↔
      (0xe1 ≤ l ∧ l < 0xf0 ∧ 0x80 ≤ b1 ∧ b1 < 0xc0 ∧ 0x80 ≤ b2 ∧ b2 < 0xc0) := by
  rw [utf8_validate_three_shape]
  simp only [Bool.and_true, Bool.and_eq_true, beq_iff_eq, Bool.not_eq_true', beq_eq_false_iff_ne,
    ne_eq]
  constructor
  · rintro ⟨⟨h1, h2, h3⟩, h4⟩
    have := ((byte_mask_ranges l hl).2.2.1).mp h1
    have := ((byte_mask_ranges b1 hb1).2.2.2.2).mp h2
    have := ((byte_mask_ranges b2 hb2).2.2.2.2).mp h3
    omega
  · intro hr
    refine ⟨⟨?_, ?_, ?_⟩, by omega⟩
    · exact ((byte_mask_ranges l hl).2.2.1).mpr (by omega)
    · exact ((byte_mask_ranges b1 hb1).2.2.2.2).mpr (by omega)
    · exact ((byte_mask_ranges b2 hb2).2.2.2.2).mpr (by omega)

theorem utf8_validate_four_iff (l b1 b2 b3 : Nat) (hl : l < 256) (hb1 : b1 < 256)
    (hb2 : b2 < 256) (hb3 : b3 < 256) :
    Utf8.validate [l, b1, b2, b3] = true ↔
      (0xf0 ≤ l ∧ l < 0xf8 ∧ 0x80 ≤ b1 ∧ b1 < 0xc0 ∧ 0x80 ≤ b2 ∧ b2 < 0xc0 ∧
        0x80 ≤ b3 ∧ b3 < 0xc0 ∧ (l = 0xf0 → 0x90 ≤ b1)) := by
  rw [utf8_validate_four_shape]
  simp only [Bool.and_true, Bool.and_eq_true, beq_iff_eq, Bool.not_eq_true',
    Bool.and_eq_false_iff, beq_eq_false_iff_ne, ne_eq, decide_eq_false_iff_not, not_lt]
  constructor
  · rintro ⟨⟨h1, h2, h3, h4⟩, h5⟩
    have := ((byte_mask_ranges l hl).2.2.2.1).mp h1
    have := ((byte_mask_ranges b1 hb1).2.2.2.2).mp h2
    have := ((byte_mask_ranges b2 hb2).2.2.2.2).mp h3
    have := ((byte_mask_ranges b3 hb3).2.2.2.2).mp h4
    rcases h5 with h5 | h5 <;> omega
  · intro hr
    refine ⟨⟨?_, ?_, ?_, ?_⟩, ?_⟩
    · exact ((byte_mask_ranges l hl).2.2.2.1).mpr (by omega)
    · exact ((byte_mask_ranges b1 hb1).2.2.2.2).mpr (by omega)
    · exact ((byte_mask_ranges b2 hb2).2.2.2.2).mpr (by omega)
    · exact ((byte_mask_ranges b3 hb3).2.2.2.2).mpr (by omega)
    · by_cases hl0 : l = 0xf0
      · right
        omega
      · left
        exact hl0

theorem utf16_validate_one_shape (u : Nat) :
    Utf16.validate [u] = (if 0xd800 ≤ u ∧ u < 0xe000 then false else true) := rfl

theorem utf16_validate_two_shape (u b : Nat) :
    Utf16.validate [u, b] =
      (if u < 0xd800 ∨ 0xdc00 ≤ u then false
       else if b < 0xdc00 ∨ 0xe000 ≤ b then false
       else true) := rfl

theorem utf16_validate_one_iff (u : Nat) :
    Utf16.validate [u] = true ↔ (u < 0xd800 ∨ 0xe000 ≤ u) := by
  rw [utf16_validate_one_shape]
  split_ifs with h
  · simp only [Bool.false_eq_true, false_iff]
    omega
  · simp only [true_iff]
    omega

theorem utf16_validate_two_iff (u b : Nat) :
    Utf16.validate [u, b] = true ↔
      (0xd800 ≤ u ∧ u < 0xdc00 ∧ 0xdc00 ≤ b ∧ b < 0xe000) := by
  rw [utf16_validate_two_shape]
  split_ifs with h1 h2
  · simp only [Bool.false_eq_true, false_iff]
    omega
  · simp only [Bool.false_eq_true, false_iff]
    omega
  · simp only [true_iff]
    omega

/-! ### Decoding raw validated sequences: closed forms -/

theorem utf8_decode_one_raw (l : Nat) (rest : List Nat) (h : l < 0x80) :
    Utf8.decode (l :: rest) = l := by
  unfold Utf8.decode
  norm_num [utf8_read_length_ascii l h, Utf8.decode_cont]

theorem utf8_decode_two_raw (l b : Nat) (rest : List Nat) (h1 : 0xc0 ≤ l) (h2 : l < 0xe0) :
    Utf8.decode (l :: b :: rest) = (l % 32) * 64 + b % 64 := by
  unfold Utf8.decode
  norm_num [utf8_read_length_lead2 l h1 h2, Utf8.decode_cont, and_1f, and_3f, shiftl6]
  rw [lor_eq_add_of 6 (l % 32 * 64) (b % 64) (by omega) (by omega)]

theorem utf8_decode_three_raw (l b1 b2 : Nat) (rest : List Nat) (h1 : 0xe0 ≤ l) (h2 : l < 0xf0) :
    Utf8.decode (l :: b1 :: b2 :: rest) = (l % 16) * 4096 + (b1 % 64) * 64 + b2 % 64 := by
  unfold Utf8.decode
  norm_num [utf8_read_length_lead3 l h1 h2, Utf8.decode_cont, and_0f, and_3f, shiftl6]
  rw [lor_eq_add_of 6 (l % 16 * 64) (b1 % 64) (by omega) (by omega),
    lor_eq_add_of 6 ((l % 16 * 64 + b1 % 64) * 64) (b2 % 64) (by omega) (by omega)]
  ring

theorem utf8_decode_four_raw (l b1 b2 b3 : Nat) (rest : List Nat) (h1 : 0xf0 ≤ l)
    (h2 : l < 0xf8) :
    Utf8.decode (l :: b1 :: b2 :: b3 :: rest) =
      (l % 8) * 262144 + (b1 % 64) * 4096 + (b2 % 64) * 64 + b3 % 64 := by
  unfold Utf8.decode
  norm_num [utf8_read_length_lead4 l h1 h2, Utf8.decode_cont, and_07, and_3f, shiftl6]
  rw [lor_eq_add_of 6 (l % 8 * 64) (b1 % 64) (by omega) (by omega),
    lor_eq_add_of 6 ((l % 8 * 64 + b1 % 64) * 64) (b2 % 64) (by omega) (by omega),
    lor_eq_add_of 6 (((l % 8 * 64 + b1 % 64) * 64 + b2 % 64) * 64) (b3 % 64) (by omega)
      (by omega)]
  ring

theorem utf16_decode_two_raw (u b : Nat) (rest : List Nat) (h1 : 0xd800 ≤ u) (h2 : u < 0xdc00)
    (h3 : 0xdc00 ≤ b) (h4 : b < 0xe000) :
    Utf16.decode (u :: b :: rest) = (u - 0xd800) * 1024 + (b - 0xdc00) + 0x10000 := by
  rw [utf16_decode_cons, utf16_read_length_two u h1 h2, if_neg (by norm_num), shiftl10]
  omega

theorem utf8_read_length_cont (b : Nat) (h1 : 0x80 ≤ b) (h2 : b < 0xc0) :
    Utf8.read_length b = 1 := by
  rw [utf8_read_length_byte b (by omega), if_neg (by omega), if_pos h2]

theorem utf8_read_length_high (b : Nat) (h1 : 0xf8 ≤ b) (h2 : b < 256) :
    Utf8.read_length b = 1 := by
  rw [utf8_read_length_byte b h2, if_neg (by omega), if_neg (by omega), if_neg (by omega),
    if_neg (by omega), if_neg (by omega)]

/-! ### Canonicity: a validated sequence is exactly the encoding of its decoding -/

theorem canonical_step_utf8 (u : Nat) (rest : List Nat)
    (hU : ∀ x ∈ u :: rest, x < 256)
    (hlen : Utf8.read_length u ≤ (u :: rest).length)
    (hval : Utf8.validate ((u :: rest).take (Utf8.read_length u)) = true)
    (hcp : validate_codepoint (Utf8.decode (u :: rest)) = true) :
    Utf8.encode (Utf8.decode (u :: rest)) = (u :: rest).take (Utf8.read_length u) := by
  have hu : u < 256 := hU u (by simp)
  rcases Nat.lt_or_ge u 0x80 with h1 | h1
  · rw [utf8_read_length_ascii u h1, utf8_decode_one_raw u rest h1, utf8_encode_one u (by omega)]
    rfl
  · rcases Nat.lt_or_ge u 0xc0 with h2 | h2
    · exfalso
      rw [utf8_read_length_cont u h1 h2,
        show (u :: rest).take 1 = [u] from rfl, utf8_validate_one_iff u hu] at hval
      omega
    · rcases Nat.lt_or_ge u 0xe0 with h3 | h3
      · rw [utf8_read_length_lead2 u h2 h3] at hval hlen ⊢
        rcases rest with _ | ⟨b, r2⟩
        · exfalso
          simp only [List.length_cons, List.length_nil] at hlen
          omega
        · have hb : b < 256 := hU b (by simp)
          rw [show (u :: b :: r2).take 2 = [u, b] from rfl] at hval ⊢
          rw [utf8_validate_two_iff u b hu hb] at hval
          rw [utf8_decode_two_raw u b r2 (by omega) (by omega)]
          rw [utf8_encode_two _ (by omega) (by omega)]
          simp only [List.cons.injEq, and_true]
          constructor <;> omega
      · rcases Nat.lt_or_ge u 0xf0 with h4 | h4
        · rw [utf8_read_length_lead3 u h3 h4] at hval hlen ⊢
          rcases rest with _ | ⟨b1, r⟩
          · exfalso
            simp only [List.length_cons, List.length_nil] at hlen
            omega
          rcases r with _ | ⟨b2, r2⟩
          · exfalso
            simp only [List.length_cons, List.length_nil] at hlen
            omega
          have hb1 : b1 < 256 := hU b1 (by simp)
          have hb2 : b2 < 256 := hU b2 (by simp)
          rw [show (u :: b1 :: b2 :: r2).take 3 = [u, b1, b2] from rfl] at hval ⊢
          rw [utf8_validate_three_iff u b1 b2 hu hb1 hb2] at hval
          rw [utf8_decode_three_raw u b1 b2 r2 (by omega) (by omega)] at hcp ⊢
          rw [validate_codepoint_iff] at hcp
          rw [utf8_encode_three _ (by omega) (by omega) hcp]
          simp only [List.cons.injEq, and_true]
          refine ⟨by omega, by omega, by omega⟩
        · rcases Nat.lt_or_ge u 0xf8 with h5 | h5
          · rw [utf8_read_length_lead4 u h4 h5] at hval hlen ⊢
            rcases rest with _ | ⟨b1, r⟩
            · exfalso
              simp only [List.length_cons, List.length_nil] at hlen
              omega
            rcases r with _ | ⟨b2, r⟩
            · exfalso
              simp only [List.length_cons, List.length_nil] at hlen
              omega
            rcases r with _ | ⟨b3, r2⟩
            · exfalso
              simp only [List.length_cons, List.length_nil] at hlen
              omega
            have hb1 : b1 < 256 := hU b1 (by simp)
            have hb2 : b2 < 256 := hU b2 (by simp)
            have hb3 : b3 < 256 := hU b3 (by simp)
            rw [show (u :: b1 :: b2 :: b3 :: r2).take 4 = [u, b1, b2, b3] from rfl] at hval ⊢
            rw [utf8_validate_four_iff u b1 b2 b3 hu hb1 hb2 hb3] at hval
            rw [utf8_decode_four_raw u b1 b2 b3 r2 (by omega) (by omega)] at hcp ⊢
            rw [validate_codepoint_iff] at hcp
            obtain ⟨v1, v2, v3, v4, v5, v6, v7, v8, v9⟩ := hval
            have hlow : 0x10000 ≤ u % 8 * 262144 + b1 % 64 * 4096 + b2 % 64 * 64 + b3 % 64 := by
              rcases Nat.eq_or_lt_of_le h4 with he | hlt
              · have := v9 he.symm
                omega
              · omega
            have hhigh : u % 8 * 262144 + b1 % 64 * 4096 + b2 % 64 * 64 + b3 % 64 < 0x110000 := by
              rcases hcp with hcp | hcp <;> omega
            rw [utf8_encode_four _ hlow hhigh]
            simp only [List.cons.injEq, and_true]
            refine ⟨by omega, by omega, by omega, by omega⟩
          · exfalso
            rw [utf8_read_length_high u h5 hu,
              show (u :: rest).take 1 = [u] from rfl, utf8_validate_one_iff u hu] at hval
            omega

theorem canonical_step_utf16 (u : Nat) (rest : List Nat)
    (hU : ∀ x ∈ u :: rest, x < 65536)
    (hlen : Utf16.read_length u ≤ (u :: rest).length)
    (hval : Utf16.validate ((u :: rest).take (Utf16.read_length u)) = true)
    (hcp : validate_codepoint (Utf16.decode (u :: rest)) = true) :
    Utf16.encode (Utf16.decode (u :: rest)) = (u :: rest).take (Utf16.read_length u) := by
  have hu : u < 65536 := hU u (by simp)
  rcases Nat.lt_or_ge u 0xd800 with h1 | h1
  · have hrl : Utf16.read_length u = 1 := utf16_read_length_one u (Or.inl h1)
    have hdec : Utf16.decode (u :: rest) = u := utf16_decode_one u rest hrl
    rw [hdec, validate_codepoint_iff] at hcp
    rw [hrl, hdec, utf16_encode_bmp u hcp (by omega)]
    rfl
  · rcases Nat.lt_or_ge u 0xdc00 with h2 | h2
    · rw [utf16_read_length_two u h1 h2] at hval hlen ⊢
      rcases rest with _ | ⟨b, r2⟩
      · exfalso
        simp only [List.length_cons, List.length_nil] at hlen
        omega
      · rw [show (u :: b :: r2).take 2 = [u, b] from rfl] at hval ⊢
        rw [utf16_validate_two_iff u b] at hval
        rw [utf16_decode_two_raw u b r2 (by omega) (by omega) (by omega) (by omega)]
        rw [utf16_encode_pair _ (by omega) (by omega)]
        simp only [List.cons.injEq, and_true]
        constructor <;> omega
    · have hrl : Utf16.read_length u = 1 := utf16_read_length_one u (Or.inr h2)
      have hdec : Utf16.decode (u :: rest) = u := utf16_decode_one u rest hrl
      rw [hdec, validate_codepoint_iff] at hcp
      rw [hrl, hdec, utf16_encode_bmp u hcp hu]
      rfl

theorem canonical_step_utf32 (u : Nat) (rest : List Nat) :
    Utf32.encode (Utf32.decode (u :: rest)) = (u :: rest).take (Utf32.read_length u) := rfl

/-- Canonicity for every encoding: when a traversal step of
`stringview::validate` passes, the consumed sequence is exactly the encoding
of the codepoint it decodes to. -/
theorem canonical_step (E : Encoding) (u : Nat) (rest : List Nat)
    (hU : UnitsOK E (u :: rest))
    (hlen : read_length E u ≤ (u :: rest).length)
    (hval : validate E ((u :: rest).take (read_length E u)) = true)
    (hcp : validate_codepoint (decode E (u :: rest)) = true) :
    encode E (decode E (u :: rest)) = (u :: rest).take (read_length E u) := by
  rcases E
  · exact canonical_step_utf8 u rest hU hlen hval hcp
  · exact canonical_step_utf16 u rest hU hlen hval hcp
  · exact canonical_step_utf32 u rest

/-- Every scalar-value-valid codepoint is encodable: `write_length` is positive. -/
theorem one_le_write_length (E : Encoding) (c : Nat) (h : ScalarValid c) :
    1 ≤ write_length E c := by
  rcases E <;>
    simp only [write_length, Utf8.write_length, Utf16.write_length, Utf32.write_length] <;>
    (rcases h with h | h <;> (split_ifs <;> omega))


/-! ### Step inversion for a passing `stringview::validate` traversal -/

theorem sv_validate_none_cons (E : Encoding) (u : Nat) (rest : List Nat)
    (h : sv_validate E (u :: rest) = none) :
    read_length E u ≤ (u :: rest).length ∧
      validate E ((u :: rest).take (read_length E u)) = true ∧
      validate_codepoint (decode E (u :: rest)) = true ∧
      sv_validate E ((u :: rest).drop (read_length E u)) = none := by
  rw [sv_validate_cons] at h
  by_cases h1 : (u :: rest).length < read_length E u
  · rw [if_pos h1] at h
    exact absurd h (by simp)
  · rw [if_neg h1] at h
    by_cases h2 : validate E ((u :: rest).take (read_length E u)) = false
    · rw [if_pos h2] at h
      exact absurd h (by simp)
    · rw [if_neg h2] at h
      by_cases h3 : validate_codepoint (decode E (u :: rest)) = false
      · rw [if_pos h3] at h
        exact absurd h (by simp)
      · rw [if_neg h3] at h
        have h2t : validate E ((u :: rest).take (read_length E u)) = true := by
          cases hb : validate E ((u :: rest).take (read_length E u))
          · exact absurd hb h2
          · rfl
        have h3t : validate_codepoint (decode E (u :: rest)) = true := by
          cases hb : validate_codepoint (decode E (u :: rest))
          · exact absurd hb h3
          · rfl
        exact ⟨by omega, h2t, h3t, h⟩

theorem UnitsOK_drop (E : Encoding) (l : List Nat) (n : Nat) (h : UnitsOK E l) :
    UnitsOK E (l.drop n) :=
  fun x hx => h x (List.drop_subset n l hx)

/-- Standalone form of the `utf32` write length on valid scalars. -/
theorem utf32_write_length_eq_one (c : Nat) (h : ScalarValid c) :
    Utf32.write_length c = 1 := by
  rcases h with h | h <;> (unfold Utf32.write_length; split_ifs <;> omega)

/-! ### Agreement of `to<EDest>` with `codeunits<EDest>` on validated windows -/

theorem sv_to_codeunits_aux (E D : Encoding) :
    ∀ n l, List.length l ≤ n → sv_validate E l = none →
      ∃ out, sv_to E D l = some out ∧ sv_codeunits_to E D l = some out.length := by
  intro n
  induction n with
  | zero =>
    intro l hl _
    have hnil : l = [] := List.eq_nil_of_length_eq_zero (by omega)
    subst hnil
    exact ⟨[], sv_to_nil E D, by rw [sv_codeunits_to_nil]; rfl⟩
  | succ n ih =>
    intro l hl hv
    rcases l with _ | ⟨u, rest⟩
    · exact ⟨[], sv_to_nil E D, by rw [sv_codeunits_to_nil]; rfl⟩
    · obtain ⟨hlen, hval, hcp, hv2⟩ := sv_validate_none_cons E u rest hv
      have hstep : 1 ≤ read_length E u := one_le_read_length E u
      obtain ⟨out2, hto, hcu⟩ := ih ((u :: rest).drop (read_length E u))
        (by simp only [List.length_drop, List.length_cons] at *; omega) hv2
      refine ⟨encode D (decode E (u :: rest)) ++ out2, ?_, ?_⟩
      · rw [sv_to_cons, if_neg (by omega), hto]
      · rw [sv_codeunits_to_cons, if_neg (by omega), hcu]
        have hsv : ScalarValid (decode E (u :: rest)) := (validate_codepoint_iff _).mp hcp
        rw [List.length_append, (encode_spec D _ hsv).1]

/-! ### Appending freshly encoded output in front of a  `to` traversal -/

theorem sv_to_encode_append (B A : Encoding) (cp : Nat) (h : ScalarValid cp) (t : List Nat) :
    sv_to B A (encode B cp ++ t) =
      (match sv_to B A t with
       | none => none
       | some out => some (encode A cp ++ out)) := by
  obtain ⟨hlen_e, hread⟩ := encode_spec B cp h
  have hpos : 1 ≤ write_length B cp := one_le_write_length B cp h
  rcases he : encode B cp with _ | ⟨u0, us⟩
  · rw [he] at hlen_e
    simp only [List.length_nil] at hlen_e
    omega
  · rw [he] at hlen_e hread
    have hhead : read_length B u0 = write_length B cp := hread
    rw [List.cons_append, sv_to_cons]
    have hcond : ¬ ((u0 :: (us ++ t)).length < read_length B u0) := by
      simp only [List.length_cons, List.length_append] at *
      omega
    rw [if_neg hcond]
    have hdrop : (u0 :: (us ++ t)).drop (read_length B u0) = t := by
      rw [hhead, show (u0 :: (us ++ t)) = (u0 :: us) ++ t from rfl, ← hlen_e]
      exact List.drop_left _ _
    have hdec : decode B (u0 :: (us ++ t)) = cp := by
      rw [show (u0 :: (us ++ t)) = (u0 :: us) ++ t from rfl, ← he]
      exact decode_encode_append B cp h t
    rw [hdrop, hdec]

/-! ### Transcoding round trip on validated windows -/

theorem sv_roundtrip_aux (A B : Encoding) :
    ∀ n l, List.length l ≤ n → sv_validate A l = none → UnitsOK A l →
      ∃ mid, sv_to A B l = some mid ∧ sv_to B A mid = some l := by
  intro n
  induction n with
  | zero =>
    intro l hl _ _
    have hnil : l = [] := List.eq_nil_of_length_eq_zero (by omega)
    subst hnil
    exact ⟨[], sv_to_nil A B, sv_to_nil B A⟩
  | succ n ih =>
    intro l hl hv hU
    rcases l with _ | ⟨u, rest⟩
    · exact ⟨[], sv_to_nil A B, sv_to_nil B A⟩
    · obtain ⟨hlen, hval, hcp, hv2⟩ := sv_validate_none_cons A u rest hv
      have hstep : 1 ≤ read_length A u := one_le_read_length A u
      have hsv : ScalarValid (decode A (u :: rest)) := (validate_codepoint_iff _).mp hcp
      obtain ⟨mid2, h1, h2⟩ := ih ((u :: rest).drop (read_length A u))
        (by simp only [List.length_drop, List.length_cons] at *; omega) hv2
        (UnitsOK_drop A (u :: rest) (read_length A u) hU)
      refine ⟨encode B (decode A (u :: rest)) ++ mid2, ?_, ?_⟩
      · rw [sv_to_cons, if_neg (by omega), h1]
      · rw [sv_to_encode_append B A (decode A (u :: rest)) hsv mid2, h2,
          canonical_step A u rest hU hlen hval hcp]
        show some (List.take (read_length A u) (u :: rest) ++
          List.drop (read_length A u) (u :: rest)) = some (u :: rest)
        rw [List.take_append_drop]

/-! ### Codepoint count agreement with UTF-32 unit count on validated windows -/

theorem sv_codepoints_utf32_aux (E : Encoding) :
    ∀ n l, List.length l ≤ n → sv_validate E l = none →
      sv_codeunits_to E Encoding.utf32 l = some (sv_codepoints E l) := by
  intro n
  induction n with
  | zero =>
    intro l hl _
    have hnil : l = [] := List.eq_nil_of_length_eq_zero (by omega)
    subst hnil
    rw [sv_codeunits_to_nil, sv_codepoints_nil]
  | succ n ih =>
    intro l hl hv
    rcases l with _ | ⟨u, rest⟩
    · rw [sv_codeunits_to_nil, sv_codepoints_nil]
    · obtain ⟨hlen, hval, hcp, hv2⟩ := sv_validate_none_cons E u rest hv
      have hstep : 1 ≤ read_length E u := one_le_read_length E u
      have hih := ih ((u :: rest).drop (read_length E u))
        (by simp only [List.length_drop, List.length_cons] at hl ⊢; omega) hv2
      rw [sv_codeunits_to_cons, if_neg (by omega), hih]
      have hsv : ScalarValid (decode E (u :: rest)) := (validate_codepoint_iff _).mp hcp
      have hw : write_length Encoding.utf32 (decode E (u :: rest)) = 1 :=
        utf32_write_length_eq_one _ hsv
      show some (write_length Encoding.utf32 (decode E (u :: rest)) +
        sv_codepoints E ((u :: rest).drop (read_length E u))) = some (sv_codepoints E (u :: rest))
      rw [hw, sv_codepoints_cons]
      congr 1
      omega

/-! ### Counting bound and concrete well-formed windows -/

theorem sv_codepoints_le_len (E : Encoding) :
    ∀ n l, List.length l ≤ n → sv_codepoints E l ≤ l.length := by
  intro n
  induction n with
  | zero =>
    intro l hl
    have hnil : l = [] := List.eq_nil_of_length_eq_zero (by omega)
    subst hnil
    rw [sv_codepoints_nil]
    exact Nat.zero_le _
  | succ n ih =>
    intro l hl
    rcases l with _ | ⟨u, rest⟩
    · rw [sv_codepoints_nil]
      exact Nat.zero_le _
    · have hstep : 1 ≤ read_length E u := one_le_read_length E u
      have hih := ih ((u :: rest).drop (read_length E u))
        (by simp only [List.length_drop, List.length_cons] at hl ⊢; omega)
      rw [sv_codepoints_cons]
      simp only [List.length_drop, List.length_cons] at hih ⊢
      omega

/-- Traversal step of `stringview::validate` when every check of the body
passes: the loop moves on to the rest of the window. -/
theorem sv_validate_step (E : Encoding) (u : Nat) (rest : List Nat)
    (h1 : ¬ ((u :: rest).length < read_length E u))
    (h2 : validate E ((u :: rest).take (read_length E u)) = true)
    (h3 : validate_codepoint (decode E (u :: rest)) = true) :
    sv_validate E (u :: rest) = sv_validate E ((u :: rest).drop (read_length E u)) := by
  rw [sv_validate_cons, if_neg h1, if_neg (by rw [h2]; simp), if_neg (by rw [h3]; simp)]

/-- The one-byte ASCII window `"A"` passes every check of the traversal, which
then falls off the end of the function. -/
theorem wf_ascii : sv_validate Encoding.utf8 [0x41] = none := by
  rw [sv_validate_step Encoding.utf8 0x41 [] (by decide) (by decide) (by decide)]
  exact sv_validate_nil Encoding.utf8

/-! ### The claims -/

/-- Claim C1: for every scalar-value-valid codepoint `cp` and every encoding
`E`, `utf_traits<E>::decode` applied to the output of `utf_traits<E>::encode cp`
returns exactly `cp`. -/
theorem claim1_decode_encode_roundtrip (E : Encoding) (cp : Nat) (h : ScalarValid cp) :
    decode E (encode E cp) = cp := by
  have hx := decode_encode_append E cp h []
  rwa [List.append_nil] at hx

/-- Witness for claim C1 at the codepoint U+1F600 in all three encodings. -/
theorem claim1_witness :
    decode Encoding.utf8 (encode Encoding.utf8 0x1F600) = 0x1F600 ∧
      decode Encoding.utf16 (encode Encoding.utf16 0x1F600) = 0x1F600 ∧
      decode Encoding.utf32 (encode Encoding.utf32 0x1F600) = 0x1F600 :=
  ⟨claim1_decode_encode_roundtrip Encoding.utf8 0x1F600 (Or.inr (by omega)),
    claim1_decode_encode_roundtrip Encoding.utf16 0x1F600 (Or.inr (by omega)),
    claim1_decode_encode_roundtrip Encoding.utf32 0x1F600 (Or.inr (by omega))⟩

/-- Claim C2: on every window that passes the source-encoding validation scan,
`codeunits<EDest>()` equals the number of code units `to<EDest>` appends. -/
theorem claim2_codeunits_agree (E D : Encoding) (l : List Nat)
    (h : sv_validate E l = none) :
    ∃ out, sv_to E D l = some out ∧ sv_codeunits_to E D l = some out.length :=
  sv_to_codeunits_aux E D l.length l (Nat.le_refl _) h

/-- Witness for claim C2 on the ASCII window `"A"`, transcoded to UTF-16. -/
theorem claim2_witness :
    ∃ out, sv_to Encoding.utf8 Encoding.utf16 [0x41] = some out ∧
      sv_codeunits_to Encoding.utf8 Encoding.utf16 [0x41] = some out.length :=
  claim2_codeunits_agree Encoding.utf8 Encoding.utf16 [0x41] wf_ascii

/-- Claim C3 (code bug): `stringview::validate()` never returns `true`.  On the
empty window and on ASCII text the loop finishes and control falls off the end
of the non-void function without returning a value (modelled as `none`), and
the buffer `E0 A0 80` -- the canonical, well-formed encoding of the boundary
codepoint U+0800 listed by the spec -- is rejected with `false` because the
3-byte overlong check rejects every lead byte `0xE0`. -/
theorem claim3_validate_never_true :
    sv_validate Encoding.utf8 [] = none ∧
      sv_validate Encoding.utf8 [0x41] = none ∧
      Utf8.encode 0x800 = [0xe0, 0xa0, 0x80] ∧
      sv_validate Encoding.utf8 [0xe0, 0xa0, 0x80] = some false := by
  refine ⟨sv_validate_nil _, wf_ascii, by decide, ?_⟩
  rw [sv_validate_cons, if_neg (by decide), if_pos (by decide)]

/-- Claim C4: `stringview::validate()` rejects overlong 2-byte sequences with
lead `C0`/`C1`, a lone UTF-16 high surrogate, the UTF-32 value `D800`, and a
UTF-8 buffer truncated in the middle of a 4-byte sequence. -/
theorem claim4_validate_rejects :
    sv_validate Encoding.utf8 [0xc0, 0x80] = some false ∧
      sv_validate Encoding.utf8 [0xc1, 0xbf] = some false ∧
      sv_validate Encoding.utf16 [0xd800] = some false ∧
      sv_validate Encoding.utf32 [0xd800] = some false ∧
      sv_validate Encoding.utf8 [0xf0, 0x90] = some false := by
  refine ⟨?_, ?_, ?_, ?_, ?_⟩
  · rw [sv_validate_cons, if_neg (by decide), if_pos (by decide)]
  · rw [sv_validate_cons, if_neg (by decide), if_pos (by decide)]
  · rw [sv_validate_cons, if_pos (by decide)]
  · rw [sv_validate_cons, if_neg (by decide), if_neg (by decide), if_pos (by decide)]
  · rw [sv_validate_cons, if_pos (by decide)]

/-- Claim C5: transcoding a validated window from `A` to `B` and back to `A`
reproduces the original code-unit sequence exactly (each scalar value has a
single canonical encoding, and the validator only accepts canonical forms). -/
theorem claim5_transcode_roundtrip (A B : Encoding) (l : List Nat)
    (hv : sv_validate A l = none) (hU : UnitsOK A l) :
    ∃ mid, sv_to A B l = some mid ∧ sv_to B A mid = some l :=
  sv_roundtrip_aux A B l.length l (Nat.le_refl _) hv hU

/-- Witness for claim C5 on the ASCII window `"A"`, via UTF-16. -/
theorem claim5_witness :
    ∃ mid, sv_to Encoding.utf8 Encoding.utf16 [0x41] = some mid ∧
      sv_to Encoding.utf16 Encoding.utf8 mid = some [0x41] :=
  claim5_transcode_roundtrip Encoding.utf8 Encoding.utf16 [0x41] wf_ascii
    (by intro x hx; rw [List.mem_singleton] at hx; subst hx; norm_num [unit_bound])

/-- Claim C6: `write_length` returns 0 exactly on the surrogate range and on
codepoints at or above `0x110000`, and otherwise returns the per-encoding unit
count of the source tables. -/
theorem claim6_write_length_spec (cp : Nat) (h : cp < 4294967296) :
    (∀ E, write_length E cp = 0 ↔ ((0xd800 ≤ cp ∧ cp < 0xe000) ∨ 0x110000 ≤ cp)) ∧
      (cp ≤ 0x7f → write_length Encoding.utf8 cp = 1) ∧
      (0x80 ≤ cp → cp < 0x800 → write_length Encoding.utf8 cp = 2) ∧
      (0x800 ≤ cp → cp < 0xd800 → write_length Encoding.utf8 cp = 3) ∧
      (0xe000 ≤ cp → cp < 0x10000 → write_length Encoding.utf8 cp = 3) ∧
      (0x10000 ≤ cp → cp < 0x110000 → write_length Encoding.utf8 cp = 4) ∧
      (cp < 0xd800 ∨ (0xe000 ≤ cp ∧ cp < 0x10000) → write_length Encoding.utf16 cp = 1) ∧
      (0x10000 ≤ cp → cp < 0x110000 → write_length Encoding.utf16 cp = 2) ∧
      (ScalarValid cp → write_length Encoding.utf32 cp = 1) := by
  refine ⟨?_, ?_, ?_, ?_, ?_, ?_, ?_, ?_, ?_⟩
  · intro E
    rcases E <;>
      simp only [write_length, Utf8.write_length, Utf16.write_length, Utf32.write_length] <;>
      split_ifs <;>
      constructor <;>
      (intro h2; (try rcases h2 with h2 | h2) <;> omega)
  · intro h1
    simp only [write_length, Utf8.write_length]
    split_ifs <;> omega
  · intro h1 h2
    simp only [write_length, Utf8.write_length]
    split_ifs <;> omega
  · intro h1 h2
    simp only [write_length, Utf8.write_length]
    split_ifs <;> omega
  · intro h1 h2
    simp only [write_length, Utf8.write_length]
    split_ifs <;> omega
  · intro h1 h2
    simp only [write_length, Utf8.write_length]
    split_ifs <;> omega
  · intro h1
    simp only [write_length, Utf16.write_length]
    rcases h1 with h1 | h1 <;> (split_ifs <;> omega)
  · intro h1 h2
    simp only [write_length, Utf16.write_length]
    split_ifs <;> omega
  · intro h1
    rcases h1 with h1 | h1 <;>
      (simp only [write_length, Utf32.write_length]; split_ifs <;> omega)

/-- Witness for claim C6 at the surrogate `0xD800` and the astral `0x1F600`. -/
theorem claim6_witness :
    (write_length Encoding.utf8 0xd800 = 0 ↔
      ((0xd800 ≤ 0xd800 ∧ 0xd800 < 0xe000) ∨ 0x110000 ≤ 0xd800)) ∧
      write_length Encoding.utf8 0x1F600 = 4 ∧
      write_length Encoding.utf16 0x1F600 = 2 :=
  ⟨(claim6_write_length_spec 0xd800 (by norm_num)).1 Encoding.utf8,
    (claim6_write_length_spec 0x1F600 (by norm_num)).2.2.2.2.2.1 (by norm_num) (by norm_num),
    (claim6_write_length_spec 0x1F600 (by norm_num)).2.2.2.2.2.2.2.1 (by norm_num) (by norm_num)⟩

/-- Claim C7: every view operation is a bounded forward scan.  Each traversal
step consumes at least one code unit, the number of steps (counted by
`codepoints`) never exceeds the window length, and on a window that passes the
validation scan the `to<EDest>` / `codeunits<EDest>` traversals consume the
window exactly and return. -/
theorem claim7_bounded_scan :
    (∀ E u, 1 ≤ read_length E u) ∧
      (∀ E l, sv_codepoints E l ≤ l.length) ∧
      (∀ E D l, sv_validate E l = none →
        (sv_to E D l).isSome ∧ (sv_codeunits_to E D l).isSome) := by
  refine ⟨one_le_read_length, ?_, ?_⟩
  · intro E l
    exact sv_codepoints_le_len E l.length l (Nat.le_refl _)
  · intro E D l hv
    obtain ⟨out, h1, h2⟩ := sv_to_codeunits_aux E D l.length l (Nat.le_refl _) hv
    exact ⟨by rw [h1]; rfl, by rw [h2]; rfl⟩

/-- Witness for claim C7 on the ASCII window `"A"`. -/
theorem claim7_witness :
    1 ≤ read_length Encoding.utf8 0x41 ∧
      sv_codepoints Encoding.utf8 [0x41] ≤ 1 ∧
      (sv_to Encoding.utf8 Encoding.utf16 [0x41]).isSome ∧
      (sv_codeunits_to Encoding.utf8 Encoding.utf16 [0x41]).isSome :=
  ⟨claim7_bounded_scan.1 Encoding.utf8 0x41,
    claim7_bounded_scan.2.1 Encoding.utf8 [0x41],
    (claim7_bounded_scan.2.2 Encoding.utf8 Encoding.utf16 [0x41] wf_ascii).1,
    (claim7_bounded_scan.2.2 Encoding.utf8 Encoding.utf16 [0x41] wf_ascii).2⟩

/-- Claim C8: for every scalar-value-valid codepoint, `encode` writes exactly
`write_length cp` code units, and `read_length` of the first written unit
re-parses the sequence at the length it was written. -/
theorem claim8_encode_shape (E : Encoding) (cp : Nat) (h : ScalarValid cp) :
    (encode E cp).length = write_length E cp ∧
      read_length E ((encode E cp).headD 0) = write_length E cp :=
  encode_spec E cp h

/-- Witness for claim C8 at the codepoint U+1F600 in UTF-16. -/
theorem claim8_witness :
    (encode Encoding.utf16 0x1F600).length = write_length Encoding.utf16 0x1F600 ∧
      read_length Encoding.utf16 ((encode Encoding.utf16 0x1F600).headD 0) =
        write_length Encoding.utf16 0x1F600 :=
  claim8_encode_shape Encoding.utf16 0x1F600 (Or.inr (by omega))

/-- Claim C9 (code bug): the claim that freshly encoded output always passes
the structural validator fails on the code.  The scalar value U+0800 is valid,
its UTF-8 encoding is the canonical `E0 A0 80`, yet `utf_traits<utf8>::validate`
returns `false` on it: the overlong check rejects every 3-byte sequence whose
lead byte is `0xE0`, contradicting the accompanying source comment (the
sequence is not overlong) and the testable properties of the spec. -/
theorem claim9_encode_rejected_by_validate :
    ScalarValid 0x800 ∧
      Utf8.encode 0x800 = [0xe0, 0xa0, 0x80] ∧
      Utf8.validate (Utf8.encode 0x800) = false :=
  ⟨Or.inl (by omega), by decide, by decide⟩

/-- Claim C10: on every window that passes the validation scan, the codepoint
count equals the UTF-32 cross-encoding unit count. -/
theorem claim10_codepoints_eq_utf32_units (E : Encoding) (l : List Nat)
    (h : sv_validate E l = none) :
    sv_codeunits_to E Encoding.utf32 l = some (sv_codepoints E l) :=
  sv_codepoints_utf32_aux E l.length l (Nat.le_refl _) h

/-- Witness for claim C10 on the ASCII window `"A"`. -/
theorem claim10_witness :
    sv_codeunits_to Encoding.utf8 Encoding.utf32 [0x41] =
      some (sv_codepoints Encoding.utf8 [0x41]) :=
  claim10_codepoints_eq_utf32_units Encoding.utf8 [0x41] wf_ascii

end UtfHpp
